import Mathlib

set_option maxHeartbeats 1000000

/-!
Shallow embedding of `src/parsing.rs` of argocd-diff-preview.

The pipeline `get_applications_as_string` splits YAML files into documents,
parses each document, keeps only Application/ApplicationSet resources that
pass the ignore-annotation and label-selector checks, patches each retained
resource's spec (namespace, syncPolicy, project, destination, source revision)
and serializes the survivors.

YAML trees (`serde_yaml::Value`) are modelled by the inductive type `Yaml`;
mappings are association lists in insertion order, as serde_yaml's IndexMap
keeps them.  Immutable indexing (`value[key]`, returning `Null` when the key
is missing or the node is not a mapping) is `Yaml.ix`; the mutable
`index_or_insert` chains, which panic on scalar intermediates, are `ixAssign`
and `patchAtPath`; a `none` result of those models a Rust panic.  The textual
YAML parser and serializer (serde_yaml itself) are external to the repository
and are not modelled: documents enter the embedded pipeline as parsed trees.
-/

/-- Generic YAML tree, modelling `serde_yaml::Value`.  Mapping entries keep
insertion order and keys are arbitrary YAML values, as in serde_yaml. -/
inductive Yaml where
  | null
  | bool (b : Bool)
  | num (n : Int)
  | str (s : String)
  | seq (xs : List Yaml)
  | map (m : List (Yaml × Yaml))

/-- A YAML mapping (`serde_yaml::Mapping`): ordered key/value entries. -/
abbrev YMapping := List (Yaml × Yaml)

/-- Does the stored key equal the string probe?  All lookups in `parsing.rs`
probe with `&str` keys, which serde_yaml compares against `Value::String`. -/
def keyMatches (k : String) : Yaml → Bool
  | Yaml.str t => k == t
  | _ => false

/-- `Mapping::get` with a string key: first entry whose key is the string. -/
def mapGet : YMapping → String → Option Yaml
  | [], _ => none
  | (k0, v0) :: rest, k => if keyMatches k k0 then some v0 else mapGet rest k

/-- Lookup defaulting to `Null` (what `index_or_insert` leaves at a fresh key,
and what immutable indexing returns for a missing key). -/
def mapGetD (m : YMapping) (k : String) : Yaml :=
  (mapGet m k).getD Yaml.null

/-- `Mapping::contains_key`. -/
def containsKey (m : YMapping) (k : String) : Bool :=
  (mapGet m k).isSome

/-- `Mapping` insertion as IndexMap does it: an existing key keeps its
position (and its stored key value); a new key is appended at the end. -/
def mapInsert : YMapping → String → Yaml → YMapping
  | [], k, v => [(Yaml.str k, v)]
  | (k0, v0) :: rest, k, v =>
    if keyMatches k k0 then (k0, v) :: rest
    else (k0, v0) :: mapInsert rest k v

/-- `Mapping::remove`: delete the entry for the key. -/
def mapRemove (m : YMapping) (k : String) : YMapping :=
  m.filter (fun kv => ! keyMatches k kv.1)

/-- Immutable indexing `value[key]` on a `Value`: mapping lookup, `Null` for
a missing key or a non-mapping node (serde_yaml's `Index` impl). -/
def Yaml.ix : Yaml → String → Yaml
  | Yaml.map m, k => mapGetD m k
  | _, _ => Yaml.null

/-- `Value::as_str`. -/
def Yaml.asStr : Yaml → Option String
  | Yaml.str s => some s
  | _ => none

/-- Is the node a mapping (`as_mapping` succeeds)? -/
def isMapY : Yaml → Bool
  | Yaml.map _ => true
  | _ => false

/-- `contains_key` lifted to a `Yaml` node: false on non-mappings. -/
def containsKeyY : Yaml → String → Bool
  | Yaml.map m, k => containsKey m k
  | _, _ => false

/-- Byte-for-byte list prefix test, for substring search. -/
def isPfx : List Char → List Char → Bool
  | [], _ => true
  | _ :: _, [] => false
  | a :: as, b :: bs => a == b && isPfx as bs

/-- Substring occurrence over char lists. -/
def containsSub (pat : List Char) : List Char → Bool
  | [] => isPfx pat []
  | c :: rest => isPfx pat (c :: rest) || containsSub pat rest

/-- Rust's `str::contains`: does `hay` contain `pat` as a substring? -/
def strContains (hay pat : String) : Bool :=
  containsSub pat.data hay.data

/-- Selector operator (`Operator` in the crate root; spec §3). -/
inductive Operator where
  | Eq
  | Ne
deriving DecidableEq, Repr

/-- Selector clause (`Selector` in the crate root; spec §3 SelectorClause). -/
structure Selector where
  key : String
  operator : Operator
  value : String
deriving DecidableEq, Repr

/-- Application kind (`ApplicationKind`). -/
inductive ApplicationKind where
  | Application
  | ApplicationSet
deriving DecidableEq, Repr

/-- `K8sResource`: a parsed document together with its source file name. -/
structure K8sResource where
  fileName : String
  yaml : Yaml

/-- `Application`: a retained resource with its recognized kind. -/
structure Application where
  fileName : String
  yaml : Yaml
  kind : ApplicationKind

/-- Replace the last element of a list (used by the document splitter to
append a line to the current chunk). -/
def updateLast (f : String → String) : List String → List String
  | [] => []
  | x :: rest =>
    match rest with
    | [] => [f x]
    | _ :: _ => x :: updateLast f rest

/-- One step of the document splitter's fold in `parse_yaml`: a line equal to
exactly `---` starts a new empty chunk; any other line is appended to the
current chunk preceded by a newline. -/
def splitStep (acc : List String) (line : String) : List String :=
  if line = "---" then acc ++ [""]
  else updateLast (fun c => c ++ "\n" ++ line) acc

/-- The document splitter of `parse_yaml`: fold the file's lines starting
from a single empty chunk. -/
def splitDocs (lines : List String) : List String :=
  lines.foldl splitStep [""]

/-- The value of `metadata.annotations["argocd-diff-preview/ignore"]`,
read with Null-propagating immutable indexing. -/
def ignoreValue (r : K8sResource) : Yaml :=
  Yaml.ix (Yaml.ix (Yaml.ix r.yaml "metadata") "annotations")
    "argocd-diff-preview/ignore"

/-- The resource's labels as string pairs: `metadata.labels` as a mapping,
keeping only entries whose key and value are both strings (`as_str()?` on
each side in `get_applications`). -/
def stringLabels (y : Yaml) : List (String × String) :=
  match Yaml.ix (Yaml.ix y "metadata") "labels" with
  | Yaml.map m =>
    m.filterMap (fun kv =>
      match kv with
      | (Yaml.str k, Yaml.str v) => some (k, v)
      | _ => none)
  | _ => []

/-- One selector clause evaluated against the extracted label list, exactly
as `get_applications` does: `Eq` is `any` with both fields equal, `Ne` is
`all` with at least one field different. -/
def clauseSat (l : Selector) (labels : List (String × String)) : Bool :=
  match l.operator with
  | Operator.Eq => labels.any (fun kv => kv.1 == l.key && kv.2 == l.value)
  | Operator.Ne => labels.all (fun kv => kv.1 != l.key || kv.2 != l.value)

/-- The per-resource body of `get_applications`'s `filter_map`: recognize the
kind, drop on the ignore annotation, then (when a selector is configured)
require every clause to be satisfied. -/
def classify (selector : Option (List Selector)) (r : K8sResource) :
    Option Application :=
  match (Yaml.ix r.yaml "kind").asStr with
  | none => none
  | some s =>
    match (if s = "Application" then some ApplicationKind.Application
           else if s = "ApplicationSet" then some ApplicationKind.ApplicationSet
           else none) with
    | none => none
    | some kind =>
      if (ignoreValue r).asStr = some "true" then none
      else
        match selector with
        | none => some ⟨r.fileName, r.yaml, kind⟩
        | some sel =>
          if sel.all (fun l => clauseSat l (stringLabels r.yaml)) then
            some ⟨r.fileName, r.yaml, kind⟩
          else none

/-- `get_applications`. -/
def getApplications (resources : List K8sResource)
    (selector : Option (List Selector)) : List Application :=
  resources.filterMap (classify selector)

/-- Mutable index-assignment `y[k1][k2]... = v` (`index_or_insert` chain):
`Null` intermediates are replaced by fresh mappings, missing keys are
inserted, and a scalar or sequence intermediate panics (`none`). -/
def ixAssign : List String → Yaml → Yaml → Option Yaml
  | [], _, v => some v
  | k :: ks, Yaml.null, v =>
    (ixAssign ks Yaml.null v).map (fun cur => Yaml.map [(Yaml.str k, cur)])
  | k :: ks, Yaml.map m, v =>
    (ixAssign ks (mapGetD m k) v).map (fun cur => Yaml.map (mapInsert m k cur))
  | _ :: _, _, _ => none

/-- The node the mutable chain `y[k1][k2]...` resolves to (the existing value,
or the `Null` freshly inserted at a missing key); `none` models the panic on
a scalar or sequence intermediate. -/
def navOrInsert : List String → Yaml → Option Yaml
  | [], y => some y
  | _ :: ks, Yaml.null => navOrInsert ks Yaml.null
  | k :: ks, Yaml.map m => navOrInsert ks (mapGetD m k)
  | _ :: _, _ => none

/-- `point_destination_to_in_cluster`: if `destination` is present, assign
`destination.name = "in-cluster"` (panicking when `destination` is a scalar
or sequence) and then remove `destination.server` when the result is a
mapping. -/
def pointDestination (spec : YMapping) : Option YMapping :=
  if containsKey spec "destination" then
    match ixAssign ["name"] (mapGetD spec "destination")
        (Yaml.str "in-cluster") with
    | none => none
    | some (Yaml.map dm) =>
      some (mapInsert spec "destination" (Yaml.map (mapRemove dm "server")))
    | some other => some (mapInsert spec "destination" other)
  else some spec

/-- The per-source rule of `redirect_sources`, shared by the `source` and
`sources[]` branches: skip when `chart` resolves to a string; otherwise set
`targetRevision` to the branch exactly when `repoURL` resolves to a string
containing the repository identifier.  When `repoURL` resolves to a string
the node is necessarily a mapping, so the non-mapping arm of the update
(where Rust's `index_or_insert` would panic) is unreachable. -/
def redirectOne (branch repo : String) (s : Yaml) : Yaml :=
  if (Yaml.ix s "chart").asStr.isSome then s
  else
    match (Yaml.ix s "repoURL").asStr with
    | some url =>
      if strContains url repo then
        match s with
        | Yaml.map m => Yaml.map (mapInsert m "targetRevision" (Yaml.str branch))
        | other => other
      else s
    | none => s

/-- `redirect_sources`: apply the per-source rule to `source` when present;
otherwise, when `sources` is a sequence, apply it to every entry; otherwise
change nothing. -/
def redirectSources (branch repo : String) (spec : YMapping) : YMapping :=
  if containsKey spec "source" then
    mapInsert spec "source" (redirectOne branch repo (mapGetD spec "source"))
  else if containsKey spec "sources" then
    match mapGetD spec "sources" with
    | Yaml.seq xs =>
      mapInsert spec "sources" (Yaml.seq (xs.map (redirectOne branch repo)))
    | _ => spec
  else spec

/-- The combined condition under which `redirect_sources` rewrites
`targetRevision` on a source node: `chart` does not resolve to a string and
`repoURL` resolves to a string containing the repository identifier. -/
def condB (repo : String) (s : Yaml) : Bool :=
  (Yaml.ix s "chart").asStr.isNone &&
    (match (Yaml.ix s "repoURL").asStr with
     | some url => strContains url repo
     | none => false)

/-- Write a key into a node that is a mapping, leaving other nodes alone. -/
def setKeyY (s : Yaml) (k : String) (v : Yaml) : Yaml :=
  match s with
  | Yaml.map m => Yaml.map (mapInsert m k v)
  | other => other

/-- The spec-cleanup sequence of `patch_applications`, in source order:
remove `syncPolicy`, force `project` to `"default"`, redirect the
destination (which can panic), redirect source revisions. -/
def specPatch (branch repo : String) (spec : YMapping) : Option YMapping :=
  match pointDestination
      (mapInsert (mapRemove spec "syncPolicy") "project"
        (Yaml.str "default")) with
  | none => none
  | some s3 => some (redirectSources branch repo s3)

/-- Resolve the kind-dependent spec path mutably (`as_mapping_mut` target):
at the end of the path, a mapping is patched with `specPatch` and written
back (`some (some _)`), a non-mapping drops the resource (`some none`);
`Null` intermediates are vivified into mappings and scalar or sequence
intermediates panic (`none`), as `index_or_insert` does. -/
def patchAtPath (branch repo : String) : List String → Yaml → Option (Option Yaml)
  | [], Yaml.map spec =>
    (specPatch branch repo spec).map (fun s2 => some (Yaml.map s2))
  | [], _ => some none
  | k :: ks, Yaml.null =>
    match patchAtPath branch repo ks Yaml.null with
    | none => none
    | some none => some none
    | some (some cur2) => some (some (Yaml.map [(Yaml.str k, cur2)]))
  | k :: ks, Yaml.map m =>
    match patchAtPath branch repo ks (mapGetD m k) with
    | none => none
    | some none => some none
    | some (some cur2) => some (some (Yaml.map (mapInsert m k cur2)))
  | _ :: _, _ => none

/-- The kind-dependent spec path: `spec` for an Application,
`spec.template.spec` for an ApplicationSet. -/
def specPath : ApplicationKind → List String
  | ApplicationKind.Application => ["spec"]
  | ApplicationKind.ApplicationSet => ["spec", "template", "spec"]

/-- One resource through `patch_applications`: set `metadata.namespace` to
`"argocd"` (which can panic), then resolve and patch the spec subtree.
`none` is a panic, `some none` a dropped resource. -/
def patchOne (branch repo : String) (a : Application) :
    Option (Option Application) :=
  match ixAssign ["metadata", "namespace"] a.yaml (Yaml.str "argocd") with
  | none => none
  | some y =>
    match patchAtPath branch repo (specPath a.kind) y with
    | none => none
    | some none => some none
    | some (some y2) => some (some ⟨a.fileName, y2, a.kind⟩)

/-- `patch_applications` (up to serialization): patch each retained resource
in order, dropping the ones whose spec path is not a mapping; `none` models
a panic. -/
def patchApplications (branch repo : String) :
    List Application → Option (List Application)
  | [] => some []
  | a :: rest =>
    match patchOne branch repo a with
    | none => none
    | some none => patchApplications branch repo rest
    | some (some a2) => (patchApplications branch repo rest).map (a2 :: ·)

/-- `get_applications_as_string` after parsing and before serialization:
the list of output documents produced for a list of parsed resources. -/
def runPipeline (branch repo : String) (selector : Option (List Selector))
    (resources : List K8sResource) : Option (List Yaml) :=
  (patchApplications branch repo (getApplications resources selector)).map
    (List.map Application.yaml)

/-! ### Helper lemmas on mappings -/

/-! ### Frame lemmas for the patch steps -/

/-! ### Lemmas on the document splitter -/

/-! ### Concrete resources used by witnesses -/

/-- Concrete retained Application used by the C3 witness. -/
def c3doc : Yaml :=
  Yaml.map [
    (Yaml.str "kind", Yaml.str "Application"),
    (Yaml.str "metadata", Yaml.map [
      (Yaml.str "labels", Yaml.map [(Yaml.str "env", Yaml.str "prod")])])]

/-- Concrete ignored resource used by the C4 witness. -/
def c4doc : Yaml :=
  Yaml.map [
    (Yaml.str "kind", Yaml.str "Application"),
    (Yaml.str "metadata", Yaml.map [
      (Yaml.str "annotations", Yaml.map [
        (Yaml.str "argocd-diff-preview/ignore", Yaml.str "true")])])]

/-- Concrete resource whose ignore annotation is the YAML boolean `true`,
used by C9. -/
def c9doc : Yaml :=
  Yaml.map [
    (Yaml.str "kind", Yaml.str "Application"),
    (Yaml.str "metadata", Yaml.map [
      (Yaml.str "annotations", Yaml.map [
        (Yaml.str "argocd-diff-preview/ignore", Yaml.bool true)])])]

/-- The C9 resource. -/
def c9res : K8sResource := ⟨"c9.yaml", c9doc⟩

/-- Concrete Application whose `spec` is a scalar, used by the C5 witness. -/
def c5app : Application :=
  ⟨"c5.yaml", Yaml.map [
    (Yaml.str "kind", Yaml.str "Application"),
    (Yaml.str "spec", Yaml.str "notamap")], ApplicationKind.Application⟩

/-- The C5 resource after the namespace write. -/
def c5y : Yaml :=
  Yaml.map [
    (Yaml.str "kind", Yaml.str "Application"),
    (Yaml.str "spec", Yaml.str "notamap"),
    (Yaml.str "metadata", Yaml.map [(Yaml.str "namespace", Yaml.str "argocd")])]

/-- Concrete spec with a destination, used by the C6 witness. -/
def c6spec : YMapping :=
  [(Yaml.str "destination", Yaml.map [
      (Yaml.str "server", Yaml.str "https://kubernetes.default.svc"),
      (Yaml.str "name", Yaml.str "old")]),
   (Yaml.str "other", Yaml.null)]

/-- The C6 spec after patching. -/
def c6spec2 : YMapping :=
  [(Yaml.str "destination",
      Yaml.map [(Yaml.str "name", Yaml.str "in-cluster")]),
   (Yaml.str "other", Yaml.null),
   (Yaml.str "project", Yaml.str "default")]

/-- Concrete spec with both `source` and `sources`, used by the C8 witness. -/
def c8spec : YMapping :=
  [(Yaml.str "source", Yaml.map [
      (Yaml.str "repoURL", Yaml.str "https://github.com/org/repo.git")]),
   (Yaml.str "sources", Yaml.seq [Yaml.map [
      (Yaml.str "repoURL", Yaml.str "https://github.com/org/repo.git")]])]

/-- The C8 spec after patching: only `source` was rewritten. -/
def c8spec2 : YMapping :=
  [(Yaml.str "source", Yaml.map [
      (Yaml.str "repoURL", Yaml.str "https://github.com/org/repo.git"),
      (Yaml.str "targetRevision", Yaml.str "preview-123")]),
   (Yaml.str "sources", Yaml.seq [Yaml.map [
      (Yaml.str "repoURL", Yaml.str "https://github.com/org/repo.git")]]),
   (Yaml.str "project", Yaml.str "default")]

/-- Concrete spec whose source has a non-string `chart` value together with
a matching `repoURL`; it falsifies C2 as stated. -/
def c2spec : YMapping :=
  [(Yaml.str "source", Yaml.map [
    (Yaml.str "chart", Yaml.num 1),
    (Yaml.str "repoURL", Yaml.str "https://github.com/org/repo.git")])]

/-- Concrete source node used by the C2 witness. -/
def c2wsrc : Yaml :=
  Yaml.map [(Yaml.str "repoURL",
    Yaml.str "https://github.com/org/repo.git")]

/-- C1 input document 1: an Application with label `env: prod`, a matching
`repoURL` and a `syncPolicy`. -/
def c1doc1 : Yaml :=
  Yaml.map [
    (Yaml.str "kind", Yaml.str "Application"),
    (Yaml.str "metadata", Yaml.map [
      (Yaml.str "labels", Yaml.map [(Yaml.str "env", Yaml.str "prod")])]),
    (Yaml.str "spec", Yaml.map [
      (Yaml.str "source", Yaml.map [
        (Yaml.str "repoURL", Yaml.str "https://github.com/org/repo.git")]),
      (Yaml.str "syncPolicy", Yaml.map [
        (Yaml.str "automated", Yaml.map [])])])]

/-- C1 input document 2: a ConfigMap. -/
def c1doc2 : Yaml := Yaml.map [(Yaml.str "kind", Yaml.str "ConfigMap")]

/-- The two parsed documents of the single C1 input file. -/
def c1resources : List K8sResource :=
  [⟨"apps.yaml", c1doc1⟩, ⟨"apps.yaml", c1doc2⟩]

/-- The C1 selector `[Eq(env, prod)]`. -/
def c1sel : List Selector := [⟨"env", Operator.Eq, "prod"⟩]

/-- The C1 pipeline output documents. -/
def c1out : Option (List Yaml) :=
  runPipeline "preview-123" "org/repo" (some c1sel) c1resources

/-- The single expected C1 output document: doc1 patched. -/
def c1expected : Yaml :=
  Yaml.map [
    (Yaml.str "kind", Yaml.str "Application"),
    (Yaml.str "metadata", Yaml.map [
      (Yaml.str "labels", Yaml.map [(Yaml.str "env", Yaml.str "prod")]),
      (Yaml.str "namespace", Yaml.str "argocd")]),
    (Yaml.str "spec", Yaml.map [
      (Yaml.str "source", Yaml.map [
        (Yaml.str "repoURL", Yaml.str "https://github.com/org/repo.git"),
        (Yaml.str "targetRevision", Yaml.str "preview-123")]),
      (Yaml.str "project", Yaml.str "default")])]

/-- C10 resource whose `metadata` is a scalar string. -/
def c10doc : Yaml :=
  Yaml.map [
    (Yaml.str "kind", Yaml.str "Application"),
    (Yaml.str "metadata", Yaml.str "oops")]

/-- C10 resource whose `spec.destination` is a scalar string. -/
def c10bdoc : Yaml :=
  Yaml.map [
    (Yaml.str "kind", Yaml.str "Application"),
    (Yaml.str "spec", Yaml.map [
      (Yaml.str "destination", Yaml.str "my-cluster")])]

/-! ### Theorems -/

theorem keyMatches_self (k : String) : keyMatches k (Yaml.str k) = true := by
  simp [keyMatches]

theorem eq_str_of_keyMatches {k : String} {y : Yaml}
    (h : keyMatches k y = true) : y = Yaml.str k := by
  cases y <;> simp [keyMatches] at h ⊢
  exact h.symm

theorem keyMatches_ne {k k' : String} (h : k' ≠ k) :
    keyMatches k' (Yaml.str k) = false := by
  simp [keyMatches]
  exact h

theorem mapGet_insert_eq (m : YMapping) (k : String) (v : Yaml) :
    mapGet (mapInsert m k v) k = some v := by
  induction m with
  | nil => simp [mapInsert, mapGet, keyMatches_self]
  | cons kv rest ih =>
    obtain ⟨k0, v0⟩ := kv
    by_cases h : keyMatches k k0 = true
    · simp [mapInsert, h, mapGet]
    · have h' : keyMatches k k0 = false := by
        cases hb : keyMatches k k0
        · rfl
        · exact absurd hb h
      simp [mapInsert, h', mapGet, ih]

theorem mapGet_insert_ne (m : YMapping) (k k' : String) (v : Yaml)
    (h : k' ≠ k) : mapGet (mapInsert m k v) k' = mapGet m k' := by
  induction m with
  | nil => simp [mapInsert, mapGet, keyMatches_ne h]
  | cons kv rest ih =>
    obtain ⟨k0, v0⟩ := kv
    by_cases hm : keyMatches k k0 = true
    · have hk0 := eq_str_of_keyMatches hm
      subst hk0
      simp [mapInsert, hm, mapGet, keyMatches_ne h]
    · have hm' : keyMatches k k0 = false := by
        cases hb : keyMatches k k0
        · rfl
        · exact absurd hb hm
      simp only [mapInsert, hm', Bool.false_eq_true, if_false, mapGet]
      split
      · rfl
      · exact ih

theorem mapGet_remove_ne (m : YMapping) (k k' : String) (h : k' ≠ k) :
    mapGet (mapRemove m k) k' = mapGet m k' := by
  induction m with
  | nil => rfl
  | cons kv rest ih =>
    obtain ⟨k0, v0⟩ := kv
    by_cases hm : keyMatches k k0 = true
    · have hk0 := eq_str_of_keyMatches hm
      subst hk0
      simp [mapRemove, List.filter, hm, mapGet, keyMatches_ne h] at ih ⊢
      exact ih
    · have hm' : keyMatches k k0 = false := by
        cases hb : keyMatches k k0
        · rfl
        · exact absurd hb hm
      simp only [mapRemove, List.filter, hm', Bool.not_false, mapGet] at ih ⊢
      split
      · rfl
      · exact ih

theorem mapGet_remove_self (m : YMapping) (k : String) :
    mapGet (mapRemove m k) k = none := by
  induction m with
  | nil => rfl
  | cons kv rest ih =>
    obtain ⟨k0, v0⟩ := kv
    by_cases hm : keyMatches k k0 = true
    · simp only [mapRemove, List.filter, hm, Bool.not_true] at ih ⊢
      exact ih
    · have hm' : keyMatches k k0 = false := by
        cases hb : keyMatches k k0
        · rfl
        · exact absurd hb hm
      simp only [mapRemove, List.filter, hm', Bool.not_false, mapGet] at ih ⊢
      simpa using ih

theorem redirectSources_frame (branch repo : String) (m : YMapping)
    (k : String) (h1 : k ≠ "source") (h2 : k ≠ "sources") :
    mapGet (redirectSources branch repo m) k = mapGet m k := by
  unfold redirectSources
  split
  · exact mapGet_insert_ne _ _ _ _ h1
  · split
    · split <;> first
      | exact mapGet_insert_ne _ _ _ _ h2
      | rfl
    · rfl

theorem pointDestination_frame (m m' : YMapping) (k : String)
    (h : pointDestination m = some m') (hk : k ≠ "destination") :
    mapGet m' k = mapGet m k := by
  unfold pointDestination at h
  split at h
  · split at h
    · exact absurd h (by simp)
    · obtain rfl := Option.some.inj h
      exact mapGet_insert_ne _ _ _ _ hk
    · obtain rfl := Option.some.inj h
      exact mapGet_insert_ne _ _ _ _ hk
  · obtain rfl := Option.some.inj h
    rfl

theorem ixAssign_single {k : String} {d v d' : Yaml}
    (h : ixAssign [k] d v = some d') :
    ∃ dm, d' = Yaml.map dm ∧ mapGet dm k = some v := by
  cases d with
  | null =>
    simp only [ixAssign, Option.map_some] at h
    exact ⟨_, (Option.some.inj h).symm, by simp [mapGet, keyMatches_self]⟩
  | map m =>
    simp only [ixAssign, Option.map_some] at h
    exact ⟨mapInsert m k v, (Option.some.inj h).symm, mapGet_insert_eq m k v⟩
  | bool b => simp [ixAssign] at h
  | num n => simp [ixAssign] at h
  | str s => simp [ixAssign] at h
  | seq xs => simp [ixAssign] at h

theorem updateLast_cons_cons (f : String → String) (a : String)
    (l : List String) (h : l ≠ []) :
    updateLast f (a :: l) = a :: updateLast f l := by
  cases l with
  | nil => exact absurd rfl h
  | cons b l2 => rfl

theorem updateLast_append_right (f : String → String) (xs ys : List String)
    (h : ys ≠ []) : updateLast f (xs ++ ys) = xs ++ updateLast f ys := by
  induction xs with
  | nil => rfl
  | cons a rest ih =>
    have hne : rest ++ ys ≠ [] := by
      intro hc
      exact h (List.append_eq_nil.mp hc).2
    rw [List.cons_append, updateLast_cons_cons f a _ hne, ih]
    rfl

theorem splitStep_append (acc cs : List String) (line : String)
    (h : cs ≠ []) : splitStep (acc ++ cs) line = acc ++ splitStep cs line := by
  unfold splitStep
  split
  · rw [List.append_assoc]
  · exact updateLast_append_right _ acc cs h

theorem splitStep_ne_nil (acc : List String) (line : String) (h : acc ≠ []) :
    splitStep acc line ≠ [] := by
  unfold splitStep
  split
  · simp
  · cases acc with
    | nil => exact absurd rfl h
    | cons a l =>
      cases l with
      | nil => simp [updateLast]
      | cons b l2 => simp [updateLast]

theorem foldl_splitStep_ne_nil (ls : List String) (acc : List String)
    (h : acc ≠ []) : ls.foldl splitStep acc ≠ [] := by
  induction ls generalizing acc with
  | nil => exact h
  | cons l ls ih => exact ih _ (splitStep_ne_nil acc l h)

theorem foldl_splitStep_append (ls : List String) (acc cs : List String)
    (h : cs ≠ []) :
    ls.foldl splitStep (acc ++ cs) = acc ++ ls.foldl splitStep cs := by
  induction ls generalizing cs with
  | nil => rfl
  | cons l ls ih =>
    rw [List.foldl_cons, List.foldl_cons, splitStep_append acc cs l h,
      ih (splitStep cs l) (splitStep_ne_nil cs l h)]

theorem foldl_splitStep_nosep (ls : List String) (c : String)
    (h : ∀ l ∈ ls, l ≠ "---") :
    ls.foldl splitStep [c] = [ls.foldl (fun a s => a ++ "\n" ++ s) c] := by
  induction ls generalizing c with
  | nil => rfl
  | cons l ls ih =>
    have hl : l ≠ "---" := h l (by simp)
    have hstep : splitStep [c] l = [c ++ "\n" ++ l] := by
      unfold splitStep
      rw [if_neg hl]
      rfl
    rw [List.foldl_cons, List.foldl_cons, hstep,
      ih _ (fun x hx => h x (by simp [hx]))]

/-- C7: the document splitter, given the lines of one file, starts from a
single empty chunk; each line equal to exactly `---` starts a new empty
chunk, and every other line is appended to the current chunk together with
its newline.  Consequently a file with no separator line yields exactly one
chunk, and a run of consecutive separator lines yields an empty chunk
between the surrounding parts. -/
theorem c7_document_splitter :
    splitDocs [] = [""]
    ∧ (∀ ls, splitDocs (ls ++ ["---"]) = splitDocs ls ++ [""])
    ∧ (∀ ls line, line ≠ "---" →
        splitDocs (ls ++ [line])
          = updateLast (fun c => c ++ "\n" ++ line) (splitDocs ls))
    ∧ (∀ ls, (∀ l ∈ ls, l ≠ "---") →
        splitDocs ls = [ls.foldl (fun c s => c ++ "\n" ++ s) ""])
    ∧ (∀ xs ys, splitDocs (xs ++ "---" :: "---" :: ys)
        = splitDocs xs ++ "" :: splitDocs ys) := by
  refine ⟨rfl, ?_, ?_, ?_, ?_⟩
  · intro ls
    unfold splitDocs
    rw [List.foldl_append]
    simp [splitStep]
  · intro ls line h
    unfold splitDocs
    rw [List.foldl_append]
    simp [splitStep, h]
  · intro ls h
    exact foldl_splitStep_nosep ls "" h
  · intro xs ys
    unfold splitDocs
    have h1 : xs ++ "---" :: "---" :: ys = (xs ++ ["---", "---"]) ++ ys := by
      simp
    rw [h1, List.foldl_append, List.foldl_append]
    have h2 : List.foldl splitStep (List.foldl splitStep [""] xs)
        ["---", "---"] = (List.foldl splitStep [""] xs ++ [""]) ++ [""] := by
      simp [splitStep]
    rw [h2, foldl_splitStep_append ys _ [""] (by simp)]
    simp

/-- Witness for C7 at a concrete separator-free file. -/
theorem c7_document_splitter_w :
    splitDocs ["a", "b"] = [["a", "b"].foldl (fun c s => c ++ "\n" ++ s) ""] :=
  c7_document_splitter.2.2.2.1 ["a", "b"] (by decide)

/-- C3: when a selector is configured, a resource is retained only if every
clause is satisfied against its labels restricted to string-keyed,
string-valued entries; an `Eq` clause is satisfied iff the restricted label
list contains the pair, an `Ne` clause iff it does not, so a resource lacking
the key entirely satisfies `Ne`. -/
theorem c3_selector_semantics :
    (∀ (sel : List Selector) (r : K8sResource) (app : Application),
        classify (some sel) r = some app →
        ∀ c ∈ sel, clauseSat c (stringLabels r.yaml) = true)
    ∧ (∀ (c : Selector) (labels : List (String × String)),
        clauseSat c labels = true ↔
          (match c.operator with
           | Operator.Eq => (c.key, c.value) ∈ labels
           | Operator.Ne => (c.key, c.value) ∉ labels))
    ∧ (∀ (c : Selector) (labels : List (String × String)),
        c.operator = Operator.Ne → (∀ v, (c.key, v) ∉ labels) →
        clauseSat c labels = true) := by
  have hiff : ∀ (c : Selector) (labels : List (String × String)),
      clauseSat c labels = true ↔
        (match c.operator with
         | Operator.Eq => (c.key, c.value) ∈ labels
         | Operator.Ne => (c.key, c.value) ∉ labels) := by
    intro c labels
    obtain ⟨key, op, value⟩ := c
    cases op with
    | Eq =>
      simp only [clauseSat, List.any_eq_true, Bool.and_eq_true, beq_iff_eq]
      constructor
      · rintro ⟨⟨k, v⟩, hm, hk, hv⟩
        subst hk
        subst hv
        exact hm
      · intro hm
        exact ⟨(key, value), hm, rfl, rfl⟩
    | Ne =>
      simp only [clauseSat, List.all_eq_true, Bool.or_eq_true, bne_iff_ne,
        ne_eq]
      constructor
      · intro hall hmem
        rcases hall (key, value) hmem with h | h
        · exact h rfl
        · exact h rfl
      · intro hnm kv hkv
        by_cases h1 : kv.1 = key
        · by_cases h2 : kv.2 = value
          · exfalso
            apply hnm
            have hkv2 : kv = (key, value) := Prod.ext h1 h2
            rwa [hkv2] at hkv
          · exact Or.inr h2
        · exact Or.inl h1
  refine ⟨?_, hiff, ?_⟩
  · intro sel r app h c hc
    simp only [classify] at h
    split at h
    · exact absurd h (by simp)
    · split at h
      · exact absurd h (by simp)
      · split at h
        · exact absurd h (by simp)
        · split at h
          · exact List.all_eq_true.mp ‹_› c hc
          · exact absurd h (by simp)
  · intro c labels hop hnone
    rw [hiff c labels, hop]
    exact hnone c.value

/-- Witness for C3: the main implication applied to a concrete retained
resource and the iff applied to its label list. -/
theorem c3_selector_semantics_w :
    clauseSat ⟨"env", Operator.Eq, "prod"⟩ (stringLabels c3doc) = true :=
  c3_selector_semantics.1 [⟨"env", Operator.Eq, "prod"⟩] ⟨"c3.yaml", c3doc⟩
    ⟨"c3.yaml", c3doc, ApplicationKind.Application⟩ rfl
    ⟨"env", Operator.Eq, "prod"⟩ (by decide)

/-- C4: a resource whose `metadata.annotations["argocd-diff-preview/ignore"]`
has string value `"true"` is never retained, for every selector configuration
(including no selector); it contributes nothing to `get_applications`. -/
theorem c4_ignore_dropped :
    ∀ (sel : Option (List Selector)) (r : K8sResource) (rs : List K8sResource),
      (ignoreValue r).asStr = some "true" →
      classify sel r = none
      ∧ getApplications (r :: rs) sel = getApplications rs sel := by
  intro sel r rs h
  have h1 : classify sel r = none := by
    simp only [classify]
    split
    · rfl
    · split
      · rfl
      · rw [if_pos h]
  refine ⟨h1, ?_⟩
  simp only [getApplications, List.filterMap_cons, h1]

/-- Witness for C4 at a concrete annotated resource. -/
theorem c4_ignore_dropped_w :
    classify none ⟨"c4.yaml", c4doc⟩ = none
    ∧ getApplications [⟨"c4.yaml", c4doc⟩] none = getApplications [] none :=
  c4_ignore_dropped none ⟨"c4.yaml", c4doc⟩ [] rfl

/-- C9: the ignore check compares `as_str()` with `Some("true")`, so a
resource whose ignore annotation is the YAML boolean `true` (unquoted) is
not dropped by the check and can appear in the output. -/
theorem c9_bool_true_not_ignored :
    (∀ r : K8sResource, ignoreValue r = Yaml.bool true →
        ¬ (ignoreValue r).asStr = some "true")
    ∧ classify none c9res
        = some ⟨"c9.yaml", c9doc, ApplicationKind.Application⟩
    ∧ getApplications [c9res] none
        = [⟨"c9.yaml", c9doc, ApplicationKind.Application⟩] := by
  refine ⟨?_, rfl, rfl⟩
  intro r h
  rw [h]
  simp [Yaml.asStr]

/-- Witness for C9's universally quantified conjunct at the concrete
resource. -/
theorem c9_bool_true_not_ignored_w :
    ¬ (ignoreValue c9res).asStr = some "true" :=
  c9_bool_true_not_ignored.1 c9res rfl

/-- If the mutable chain resolves the path to a node that is not a mapping,
`patchAtPath` drops the resource (no panic, no patch). -/
theorem patchAtPath_nonmap (branch repo : String) (p : List String)
    (y node : Yaml) (h : navOrInsert p y = some node)
    (hn : isMapY node = false) :
    patchAtPath branch repo p y = some none := by
  induction p generalizing y with
  | nil =>
    simp only [navOrInsert, Option.some.injEq] at h
    subst h
    cases y with
    | map m => simp [isMapY] at hn
    | null => rfl
    | bool b => rfl
    | num n => rfl
    | str s => rfl
    | seq xs => rfl
  | cons k ks ih =>
    cases y with
    | null =>
      simp only [navOrInsert] at h
      have h2 := ih Yaml.null h
      simp only [patchAtPath, h2]
    | map m =>
      simp only [navOrInsert] at h
      have h2 := ih (mapGetD m k) h
      simp only [patchAtPath, h2]
    | bool b => simp [navOrInsert] at h
    | num n => simp [navOrInsert] at h
    | str s => simp [navOrInsert] at h
    | seq xs => simp [navOrInsert] at h

/-- C5: for a retained Application whose kind-dependent spec path does not
resolve to a mapping node, `patch_applications` drops the resource entirely
(given that the namespace write itself did not panic), and the remaining
resources are processed as if it were absent. -/
theorem c5_nonmapping_spec_dropped :
    ∀ (branch repo : String) (a : Application) (rest : List Application)
      (y node : Yaml),
      ixAssign ["metadata", "namespace"] a.yaml (Yaml.str "argocd") = some y →
      navOrInsert (specPath a.kind) y = some node →
      isMapY node = false →
      patchApplications branch repo (a :: rest)
        = patchApplications branch repo rest := by
  intro branch repo a rest y node h1 h2 h3
  have hp := patchAtPath_nonmap branch repo (specPath a.kind) y node h2 h3
  simp only [patchApplications, patchOne, h1, hp]

/-- Witness for C5 at the concrete Application. -/
theorem c5_nonmapping_spec_dropped_w :
    patchApplications "branch" "repo" [c5app]
      = patchApplications "branch" "repo" [] :=
  c5_nonmapping_spec_dropped "branch" "repo" c5app [] c5y
    (Yaml.str "notamap") rfl rfl rfl

/-- C6: if the resolved spec contained a `destination` field before patching,
then after a successful patch `destination.name` is `"in-cluster"` and
`destination.server` is absent; if the spec has no `destination` field, the
destination step changes nothing and is not an error. -/
theorem c6_destination_in_cluster :
    (∀ (branch repo : String) (spec spec' : YMapping),
        specPatch branch repo spec = some spec' →
        containsKey spec "destination" = true →
        Yaml.ix (mapGetD spec' "destination") "name" = Yaml.str "in-cluster"
        ∧ containsKeyY (mapGetD spec' "destination") "server" = false)
    ∧ (∀ spec : YMapping, containsKey spec "destination" = false →
        pointDestination spec = some spec) := by
  constructor
  · intro branch repo spec spec' hp hd
    have hget : mapGet (mapInsert (mapRemove spec "syncPolicy") "project"
        (Yaml.str "default")) "destination" = mapGet spec "destination" := by
      rw [mapGet_insert_ne _ _ _ _ (by decide),
        mapGet_remove_ne _ _ _ (by decide)]
    have hd2 : containsKey (mapInsert (mapRemove spec "syncPolicy") "project"
        (Yaml.str "default")) "destination" = true := by
      unfold containsKey
      rw [hget]
      exact hd
    simp only [specPatch] at hp
    cases hpt : pointDestination (mapInsert (mapRemove spec "syncPolicy")
        "project" (Yaml.str "default")) with
    | none =>
      rw [hpt] at hp
      exact absurd hp (by simp)
    | some s3 =>
      rw [hpt] at hp
      have hp2 := Option.some.inj hp
      subst hp2
      unfold pointDestination at hpt
      rw [if_pos hd2] at hpt
      cases hax : ixAssign ["name"]
          (mapGetD (mapInsert (mapRemove spec "syncPolicy") "project"
            (Yaml.str "default")) "destination") (Yaml.str "in-cluster") with
      | none =>
        rw [hax] at hpt
        exact absurd hpt (by simp)
      | some d' =>
        obtain ⟨dm, rfl, hname⟩ := ixAssign_single hax
        rw [hax] at hpt
        have hpt2 := Option.some.inj hpt
        subst hpt2
        have hdest : mapGet (redirectSources branch repo
            (mapInsert (mapInsert (mapRemove spec "syncPolicy") "project"
              (Yaml.str "default")) "destination"
              (Yaml.map (mapRemove dm "server")))) "destination"
            = some (Yaml.map (mapRemove dm "server")) := by
          rw [redirectSources_frame _ _ _ _ (by decide) (by decide),
            mapGet_insert_eq]
        constructor
        · unfold mapGetD
          rw [hdest]
          simp only [Option.getD_some, Yaml.ix]
          unfold mapGetD
          rw [mapGet_remove_ne _ _ _ (by decide), hname]
          rfl
        · unfold mapGetD
          rw [hdest]
          simp only [Option.getD_some, containsKeyY, containsKey,
            mapGet_remove_self]
          rfl
  · intro spec h
    unfold pointDestination
    rw [if_neg (by simp [h])]

/-- Witness for C6 at the concrete spec. -/
theorem c6_destination_in_cluster_w :
    Yaml.ix (mapGetD c6spec2 "destination") "name" = Yaml.str "in-cluster"
    ∧ containsKeyY (mapGetD c6spec2 "destination") "server" = false :=
  c6_destination_in_cluster.1 "branch" "repo" c6spec c6spec2 rfl rfl

/-- C8: when the resolved spec contains a `source` field, patching inspects
only `source`; the entire `sources` subtree is unchanged by the patch. -/
theorem c8_sources_untouched :
    ∀ (branch repo : String) (spec spec' : YMapping),
      containsKey spec "source" = true →
      specPatch branch repo spec = some spec' →
      mapGet spec' "sources" = mapGet spec "sources" := by
  intro branch repo spec spec' hs hp
  have hg1 : mapGet (mapInsert (mapRemove spec "syncPolicy") "project"
      (Yaml.str "default")) "sources" = mapGet spec "sources" := by
    rw [mapGet_insert_ne _ _ _ _ (by decide),
      mapGet_remove_ne _ _ _ (by decide)]
  have hg1src : mapGet (mapInsert (mapRemove spec "syncPolicy") "project"
      (Yaml.str "default")) "source" = mapGet spec "source" := by
    rw [mapGet_insert_ne _ _ _ _ (by decide),
      mapGet_remove_ne _ _ _ (by decide)]
  simp only [specPatch] at hp
  cases hpt : pointDestination (mapInsert (mapRemove spec "syncPolicy")
      "project" (Yaml.str "default")) with
  | none =>
    rw [hpt] at hp
    exact absurd hp (by simp)
  | some s3 =>
    rw [hpt] at hp
    have hp2 := Option.some.inj hp
    subst hp2
    have h3 : mapGet s3 "sources" = mapGet spec "sources" := by
      rw [pointDestination_frame _ _ _ hpt (by decide), hg1]
    have h3src : mapGet s3 "source" = mapGet spec "source" := by
      rw [pointDestination_frame _ _ _ hpt (by decide), hg1src]
    have hcs3 : containsKey s3 "source" = true := by
      unfold containsKey
      rw [h3src]
      exact hs
    unfold redirectSources
    rw [if_pos hcs3, mapGet_insert_ne _ _ _ _ (by decide), h3]

/-- Witness for C8 at the concrete spec. -/
theorem c8_sources_untouched_w :
    mapGet c8spec2 "sources" = mapGet c8spec "sources" :=
  c8_sources_untouched "preview-123" "org/repo" c8spec c8spec2 rfl rfl

/-- Counterexample to C2 as stated: the source has a `chart` field (so by the
claim the subtree should be left unchanged), yet the redirect step sets
`targetRevision` to the branch, because the code only skips when `chart`
resolves to a string. -/
theorem c2_counterexample :
    containsKeyY (mapGetD c2spec "source") "chart" = true
    ∧ Yaml.ix (mapGetD c2spec "source") "targetRevision" = Yaml.null
    ∧ Yaml.ix (mapGetD (redirectSources "preview-123" "org/repo" c2spec)
        "source") "targetRevision" = Yaml.str "preview-123" :=
  ⟨rfl, rfl, rfl⟩

/-- C2 (amended): `targetRevision` is set to the branch iff `chart` is absent
or not a string AND `repoURL` is a string containing the repository
identifier (the combined condition `condB`); in every other case the source
node is unchanged.  `source` takes the single-source branch; otherwise a
`sources` sequence is rewritten entrywise by the same rule; otherwise the
spec is unchanged. -/
theorem c2_redirect_rule :
    (∀ (branch repo : String) (s : Yaml),
        (condB repo s = true →
          redirectOne branch repo s
            = setKeyY s "targetRevision" (Yaml.str branch))
        ∧ (condB repo s = false → redirectOne branch repo s = s))
    ∧ (∀ (branch repo : String) (spec : YMapping),
        containsKey spec "source" = true →
        redirectSources branch repo spec
          = mapInsert spec "source"
              (redirectOne branch repo (mapGetD spec "source")))
    ∧ (∀ (branch repo : String) (spec : YMapping) (xs : List Yaml),
        containsKey spec "source" = false →
        mapGetD spec "sources" = Yaml.seq xs →
        redirectSources branch repo spec
          = mapInsert spec "sources"
              (Yaml.seq (xs.map (redirectOne branch repo))))
    ∧ (∀ (branch repo : String) (spec : YMapping),
        containsKey spec "source" = false →
        (∀ xs, mapGetD spec "sources" ≠ Yaml.seq xs) →
        redirectSources branch repo spec = spec) := by
  refine ⟨?_, ?_, ?_, ?_⟩
  · intro branch repo s
    constructor
    · intro h
      simp only [condB, Bool.and_eq_true, Option.isNone_iff_eq_none] at h
      obtain ⟨h1, h2⟩ := h
      cases hr : (Yaml.ix s "repoURL").asStr with
      | none => rw [hr] at h2; simp at h2
      | some url =>
        rw [hr] at h2
        have hcon : strContains url repo = true := by simpa using h2
        cases s with
        | map m => simp [redirectOne, h1, hr, hcon, setKeyY]
        | null => simp [Yaml.ix, Yaml.asStr] at hr
        | bool b => simp [Yaml.ix, Yaml.asStr] at hr
        | num n => simp [Yaml.ix, Yaml.asStr] at hr
        | str t => simp [Yaml.ix, Yaml.asStr] at hr
        | seq xs => simp [Yaml.ix, Yaml.asStr] at hr
    · intro h
      cases hc : (Yaml.ix s "chart").asStr with
      | some t => simp [redirectOne, hc]
      | none =>
        cases hr : (Yaml.ix s "repoURL").asStr with
        | none => simp [redirectOne, hc, hr]
        | some url =>
          simp only [condB, hc, hr, Option.isNone_none, Bool.true_and] at h
          have hcon : strContains url repo = false := by simpa using h
          simp [redirectOne, hc, hr, hcon]
  · intro branch repo spec h
    unfold redirectSources
    rw [if_pos h]
  · intro branch repo spec xs h1 h2
    have hcs : containsKey spec "sources" = true := by
      unfold containsKey
      unfold mapGetD at h2
      cases hg : mapGet spec "sources" with
      | none => rw [hg] at h2; simp at h2
      | some v => rfl
    unfold redirectSources
    rw [if_neg (by simp [h1]), if_pos hcs, h2]
  · intro branch repo spec h1 h2
    unfold redirectSources
    rw [if_neg (by simp [h1])]
    by_cases hcs : containsKey spec "sources" = true
    · rw [if_pos hcs]
      cases hv : mapGetD spec "sources" with
      | seq xs => exact absurd hv (h2 xs)
      | null => rfl
      | bool b => rfl
      | num n => rfl
      | str t => rfl
      | map m => rfl
    · rw [if_neg hcs]

/-- Witness for the amended C2 at a concrete source node. -/
theorem c2_redirect_rule_w :
    redirectOne "preview-123" "org/repo" c2wsrc
      = setKeyY c2wsrc "targetRevision" (Yaml.str "preview-123") :=
  (c2_redirect_rule.1 "preview-123" "org/repo" c2wsrc).1 rfl

/-- C1: the pipeline on the two-document file with selector `[Eq(env, prod)]`,
repository identifier `"org/repo"` and branch `"preview-123"` produces
exactly one output document, doc1's, with `syncPolicy` absent, `project`
equal to `"default"`, `metadata.namespace` equal to `"argocd"` and
`spec.source.targetRevision` equal to `"preview-123"`. -/
theorem c1_end_to_end :
    c1out = some [c1expected]
    ∧ containsKeyY (Yaml.ix c1expected "spec") "syncPolicy" = false
    ∧ Yaml.ix (Yaml.ix c1expected "spec") "project" = Yaml.str "default"
    ∧ Yaml.ix (Yaml.ix c1expected "metadata") "namespace" = Yaml.str "argocd"
    ∧ Yaml.ix (Yaml.ix (Yaml.ix c1expected "spec") "source") "targetRevision"
        = Yaml.str "preview-123"
    ∧ Yaml.ix c1expected "kind" = Yaml.str "Application" :=
  ⟨rfl, rfl, rfl, rfl, rfl, rfl⟩

/-- C10: patching is not total — a retained resource whose `metadata` is a
non-null scalar makes the namespace index-assignment panic, and a retained
resource whose `spec.destination` is a non-null scalar makes the destination
index-assignment panic (`none` models the panic); both resources pass the
classifier. -/
theorem c10_patch_panics :
    getApplications [⟨"f.yaml", c10doc⟩] none
      = [⟨"f.yaml", c10doc, ApplicationKind.Application⟩]
    ∧ patchApplications "branch" "repo"
        [⟨"f.yaml", c10doc, ApplicationKind.Application⟩] = none
    ∧ getApplications [⟨"g.yaml", c10bdoc⟩] none
      = [⟨"g.yaml", c10bdoc, ApplicationKind.Application⟩]
    ∧ patchApplications "branch" "repo"
        [⟨"g.yaml", c10bdoc, ApplicationKind.Application⟩] = none :=
  ⟨rfl, rfl, rfl, rfl⟩
